import Mathlib

/-!
Verification of the Q&A segmentation core of the FAQ-extraction pipeline
(`src/DocDataExtraction/extract_faq_to_json.ipynb`).

Strings are modelled as lists of characters.  `clean_line`, the parse state
and the per-paragraph transition `step` are translated directly from the
Python source: `clean_line` is `line.strip()` followed by stripping U+FEFF
from both ends; the loop body of `read_faq` becomes `step`; the trailing
flush becomes `finalFlush`.  The course loop of the notebook is modelled by
`course_loop` over an abstract fetch function returning `Except`, mirroring
`requests.get(...).raise_for_status()` raising.
-/

namespace FaqExtract

/-- Strings are modelled as lists of characters. -/
abbrev Str := List Char

/-- The characters Python's `str.strip()` (no argument) removes: exactly the
characters for which `str.isspace()` holds. -/
def pySpaceChars : Str :=
  ['\t', '\n', '\x0b', '\x0c', '\r', '\x1c', '\x1d', '\x1e', '\x1f', ' ',
   '\x85', '\xa0', '\u1680', '\u2000', '\u2001', '\u2002', '\u2003', '\u2004',
   '\u2005', '\u2006', '\u2007', '\u2008', '\u2009', '\u200a', '\u2028',
   '\u2029', '\u202f', '\u205f', '\u3000']

/-- Whether a character is Python whitespace.  Note that U+FEFF is not. -/
def isPySpace (c : Char) : Bool := pySpaceChars.contains c

/-- Whether a character is the byte-order mark U+FEFF. -/
def isBOM (c : Char) : Bool := c == '\uFEFF'

/-- Remove the trailing run of characters satisfying `p`. -/
def dropTrail (p : Char → Bool) (s : Str) : Str := (s.reverse.dropWhile p).reverse

/-- Python's `str.strip`: remove the leading and trailing runs of characters
satisfying `p` (for `strip()` this is `isPySpace`; for the one-character
argument U+FEFF it is `isBOM`). -/
def pyStrip (p : Char → Bool) (s : Str) : Str := dropTrail p (s.dropWhile p)

/-- `s.strip()` in the source. -/
def stripWS (s : Str) : Str := pyStrip isPySpace s

/-- Stripping U+FEFF from both ends, the second statement of `clean_line`. -/
def stripBOM (s : Str) : Str := pyStrip isBOM s

/-- `clean_line` from the notebook: `line.strip()` then stripping U+FEFF. -/
def clean_line (line : Str) : Str := stripBOM (stripWS line)

/-- Python's `str.lower()` (ASCII case folding suffices for the style names
compared in the source). -/
def lowerStr (s : Str) : Str := s.map Char.toLower

/-- `question_heading_style = 'heading 2'` in `read_faq`. -/
def question_heading_style : Str := ("heading 2").toList

/-- `section_heading_style = 'heading 1'` in `read_faq`. -/
def section_heading_style : Str := ("heading 1").toList

/-- One paragraph of the document as the Segmenter sees it: its text and
the style name (`p.text` and `p.style.name` in the source). -/
structure StyledBlock where
  text : Str
  style : Str
  deriving DecidableEq

/-- One emitted question/answer record: the dict
`{'text': ..., 'section': ..., 'question': ...}` appended to `questions`
in the source.  The `'section'` key is called `sec` here because `section`
is a Lean keyword. -/
structure Record where
  text : Str
  sec : Str
  question : Str
  deriving DecidableEq

/-- The mutable state of `read_faq`'s loop: `section_title`,
`question_title`, `answer_text_so_far` and the output list `questions`. -/
structure ParseState where
  section_title : Str
  question_title : Str
  answer_text_so_far : Str
  questions : List Record
  deriving DecidableEq

/-- The flush condition
`answer_text_so_far.strip() and section_title and question_title`
(Python string truthiness = non-emptiness). -/
def flushGuard (st : ParseState) : Prop :=
  stripWS st.answer_text_so_far ≠ [] ∧ st.section_title ≠ [] ∧ st.question_title ≠ []

instance (st : ParseState) : Decidable (flushGuard st) := by
  unfold flushGuard; infer_instance

/-- The record appended at a flush:
`{'text': answer_text_so_far.strip(), 'section': section_title, 'question': question_title}`. -/
def flushRec (st : ParseState) : Record :=
  ⟨stripWS st.answer_text_so_far, st.section_title, st.question_title⟩

/-- The body of `read_faq`'s `for p in doc.paragraphs` loop, translated
clause by clause: skip empty cleaned text; on a section heading set
`section_title`; on a question heading flush if the guard holds (resetting
`answer_text_so_far` only inside that branch, as in the source) and set
`question_title`; otherwise append a line break and the cleaned text to
`answer_text_so_far`. -/
def step (st : ParseState) (p : StyledBlock) : ParseState :=
  let style := lowerStr p.style
  let p_text := clean_line p.text
  if p_text = [] then st
  else if style = section_heading_style then { st with section_title := p_text }
  else if style = question_heading_style then
    if flushGuard st then
      { st with questions := st.questions ++ [flushRec st],
                answer_text_so_far := [],
                question_title := p_text }
    else { st with question_title := p_text }
  else { st with answer_text_so_far := st.answer_text_so_far ++ '\n' :: p_text }

/-- The trailing `if answer_text_so_far.strip() and section_title and
question_title` flush after the loop in `read_faq`. -/
def finalFlush (st : ParseState) : List Record :=
  if flushGuard st then st.questions ++ [flushRec st] else st.questions

/-- The initial state: `section_title = ''`, `question_title = ''`,
`answer_text_so_far = ''`, `questions = []`. -/
def initState : ParseState := ⟨[], [], [], []⟩

/-- The parsing core of `read_faq`, as a fold of `step` over the paragraph
blocks followed by the final flush.  (Downloading the document and
converting it to paragraphs is I/O performed by the Fetcher; the Segmenter
consumes the resulting `StyledBlock` sequence.) -/
def read_faq (blocks : List StyledBlock) : List Record :=
  finalFlush (List.foldl step initState blocks)

end FaqExtract

namespace FaqExtract

/-- A retrieval failure: `requests.get` / `response.raise_for_status()`
raising in `read_faq` (e.g. `err 404` for an HTTP error status). -/
inductive FetchError where
  | err : Nat → FetchError
  deriving DecidableEq

/-- The fixed course-name to Google-Docs-file-id mapping `faq_documents`
from the notebook, in its iteration order. -/
def faq_documents : List (Str × Str) :=
  [(("data-engineering-zoomcamp").toList, ("19bnYs80DwuUimHM65UV3sylsCn2j1vziPOwzBwQrebw").toList),
   (("machine-learning-zoomcamp").toList, ("1LpPanc33QJJ6BSsyxVg-pWNMplal84TdZtq10naIhD8").toList),
   (("mlops-zoomcamp").toList, ("12TlBfhIiKtyBv8RnsoJR6F72bkPDGEvPOItJIxaEzE0").toList)]

/-- The full `read_faq`, fetching included: the download and
document-to-blocks conversion is an abstract fetch function that either
raises (`Except.error`, as `raise_for_status` does) or yields the
paragraph blocks, which are then parsed by the pure core. -/
def read_faq_remote (fetch : Str → Except FetchError (List StyledBlock))
    (file_id : Str) : Except FetchError (List Record) :=
  match fetch file_id with
  | .error e => .error e
  | .ok blocks => .ok (read_faq blocks)

/-- One entry of the aggregate: `{'course': course, 'documents': course_documents}`. -/
structure CourseBundle where
  course : Str
  documents : List Record
  deriving DecidableEq

/-- The course loop of the notebook
(`for course, file_id in faq_documents.items(): ... read_faq(file_id) ...`):
there is no exception handling around `read_faq`, so an uncaught exception
propagates, aborts the loop, and the aggregate is never serialized; the
aggregate list is produced only when every course succeeds. -/
def course_loop (fetch : Str → Except FetchError (List StyledBlock)) :
    List (Str × Str) → Except FetchError (List CourseBundle)
  | [] => .ok []
  | (course, file_id) :: rest =>
    match read_faq_remote fetch file_id with
    | .error e => .error e
    | .ok docs =>
      match course_loop fetch rest with
      | .error e => .error e
      | .ok out => .ok (⟨course, docs⟩ :: out)

/-- A small well-formed FAQ document used as concrete fetched content. -/
def demoBlocks : List StyledBlock :=
  [⟨("General").toList, ("Heading 1").toList⟩,
   ⟨("Q?").toList, ("Heading 2").toList⟩,
   ⟨("Ans").toList, ("Normal").toList⟩]

/-- A fetch function that raises an HTTP 404 for the first course's file id
and succeeds for every other file id. -/
def badFetch (file_id : Str) : Except FetchError (List StyledBlock) :=
  if file_id = ("19bnYs80DwuUimHM65UV3sylsCn2j1vziPOwzBwQrebw").toList
  then .error (.err 404) else .ok demoBlocks

/-- A fetch function that always succeeds. -/
def goodFetch (_ : Str) : Except FetchError (List StyledBlock) := .ok demoBlocks

/-- A body style name that lowercases to neither heading style. -/
def body_style : Str := ("normal").toList

/-- Re-expansion of an emitted record into a SectionHeading block, a
QuestionHeading block and a Body block, in order. -/
def expandRecord (r : Record) : List StyledBlock :=
  [⟨r.sec, section_heading_style⟩, ⟨r.question, question_heading_style⟩, ⟨r.text, body_style⟩]

/-- Re-expansion of a whole record sequence into a block sequence. -/
def expand (rs : List Record) : List StyledBlock :=
  (rs.map expandRecord).flatten

/-- The number of blocks whose style is, case-insensitively, the question
heading style. -/
def countQH (blocks : List StyledBlock) : Nat :=
  List.countP (fun b => decide (lowerStr b.style = question_heading_style)) blocks

/-- The indicator that `question_title` currently holds a question. -/
def qInd (st : ParseState) : Nat := if st.question_title = [] then 0 else 1

/-- An instrumented record: the section and question of an emitted record
together with the list of cleaned block texts whose accumulation formed
its answer. -/
structure TraceRec where
  sec : Str
  question : Str
  parts : List Str
  deriving DecidableEq

/-- Instrumented parse state: `parts` is the list of cleaned texts of the
non-heading blocks accumulated into the pending answer since the last
flush (or since the start of the input). -/
structure TraceState where
  sec : Str
  question : Str
  parts : List Str
  recs : List TraceRec
  deriving DecidableEq

/-- Joining accumulated texts exactly as the pending answer is built:
each contribution is a line break followed by the cleaned text. -/
def joinParts (ts : List Str) : Str :=
  List.foldl (fun acc t => acc ++ '\n' :: t) [] ts

/-- The flush condition, on the instrumented state. -/
def traceFlushGuard (t : TraceState) : Prop :=
  stripWS (joinParts t.parts) ≠ [] ∧ t.sec ≠ [] ∧ t.question ≠ []

instance (t : TraceState) : Decidable (traceFlushGuard t) := by
  unfold traceFlushGuard; infer_instance

/-- The instrumented transition: identical branching to `step`, but
recording, instead of the concatenated pending answer, the list of cleaned
texts contributed to it since the last flush. -/
def stepTrace (t : TraceState) (p : StyledBlock) : TraceState :=
  let style := lowerStr p.style
  let p_text := clean_line p.text
  if p_text = [] then t
  else if style = section_heading_style then { t with sec := p_text }
  else if style = question_heading_style then
    if traceFlushGuard t then
      { t with recs := t.recs ++ [⟨t.sec, t.question, t.parts⟩],
               parts := [],
               question := p_text }
    else { t with question := p_text }
  else { t with parts := t.parts ++ [p_text] }

/-- The instrumented final flush. -/
def finalTrace (t : TraceState) : List TraceRec :=
  if traceFlushGuard t then t.recs ++ [⟨t.sec, t.question, t.parts⟩] else t.recs

/-- The initial instrumented state. -/
def initTrace : TraceState := ⟨[], [], [], []⟩

/-- The instrumented segmentation: the emitted records with, for each, the
cleaned texts that formed its answer. -/
def traceRecs (blocks : List StyledBlock) : List TraceRec :=
  finalTrace (List.foldl stepTrace initTrace blocks)

/-- The record an instrumented record denotes: its answer is the trimmed
line-break join of its accumulated texts. -/
def absRec (tr : TraceRec) : Record :=
  ⟨stripWS (joinParts tr.parts), tr.sec, tr.question⟩

/-- The parse state an instrumented state denotes. -/
def absState (t : TraceState) : ParseState :=
  ⟨t.sec, t.question, joinParts t.parts, t.recs.map absRec⟩


/-- Blocks with preamble Body text before the first QuestionHeading. -/
def leakBlocks : List StyledBlock :=
  [⟨("S").toList, ("Heading 1").toList⟩,
   ⟨("pre").toList, ("Normal").toList⟩,
   ⟨("Q1").toList, ("Heading 2").toList⟩,
   ⟨("ans").toList, ("Normal").toList⟩,
   ⟨("Q2").toList, ("Heading 2").toList⟩]

/-- Blocks producing two records with two different sections. -/
def twoSecBlocks : List StyledBlock :=
  [⟨("A").toList, ("Heading 1").toList⟩,
   ⟨("Q1").toList, ("Heading 2").toList⟩,
   ⟨("x").toList, ("Normal").toList⟩,
   ⟨("Q2").toList, ("Heading 2").toList⟩,
   ⟨("y").toList, ("Normal").toList⟩,
   ⟨("B").toList, ("Heading 1").toList⟩]

/-- Blocks whose question heading carries a byte-order mark shielding a
space, so that the emitted question is not a fixed point of `clean_line`. -/
def bomQBlocks : List StyledBlock :=
  [⟨("S").toList, ("Heading 1").toList⟩,
   ⟨("\uFEFF Q").toList, ("Heading 2").toList⟩,
   ⟨("x").toList, ("Normal").toList⟩]

/-- A record all of whose serialized fields are non-empty. -/
def goodRec (r : Record) : Prop := r.text ≠ [] ∧ r.sec ≠ [] ∧ r.question ≠ []

/-- A longer input whose segmentation has already emitted a record and has
a non-empty pending answer and question. -/
def midBlocks : List StyledBlock :=
  [⟨("General").toList, ("Heading 1").toList⟩,
   ⟨("Q?").toList, ("Heading 2").toList⟩,
   ⟨("Ans").toList, ("Normal").toList⟩,
   ⟨("Q2").toList, ("Heading 2").toList⟩,
   ⟨("B2").toList, ("Normal").toList⟩]

end FaqExtract
namespace FaqExtract

theorem step_skip (st : ParseState) (b : StyledBlock) (h : clean_line b.text = []) :
    step st b = st := by
  simp [step, h]

theorem step_section (st : ParseState) (b : StyledBlock) (h1 : clean_line b.text ≠ [])
    (h2 : lowerStr b.style = section_heading_style) :
    step st b = { st with section_title := clean_line b.text } := by
  simp [step, h1, h2]

theorem step_question_flush (st : ParseState) (b : StyledBlock) (h1 : clean_line b.text ≠ [])
    (h2 : lowerStr b.style = question_heading_style) (h3 : flushGuard st) :
    step st b = { st with questions := st.questions ++ [flushRec st],
                          answer_text_so_far := [],
                          question_title := clean_line b.text } := by
  have hne : question_heading_style ≠ section_heading_style := by decide
  simp [step, h1, h2, h3, hne]

theorem step_question_noflush (st : ParseState) (b : StyledBlock) (h1 : clean_line b.text ≠ [])
    (h2 : lowerStr b.style = question_heading_style) (h3 : ¬ flushGuard st) :
    step st b = { st with question_title := clean_line b.text } := by
  have hne : question_heading_style ≠ section_heading_style := by decide
  simp [step, h1, h2, h3, hne]

theorem step_body (st : ParseState) (b : StyledBlock) (h1 : clean_line b.text ≠ [])
    (h2 : lowerStr b.style ≠ section_heading_style)
    (h3 : lowerStr b.style ≠ question_heading_style) :
    step st b = { st with answer_text_so_far := st.answer_text_so_far ++ '\n' :: clean_line b.text } := by
  simp [step, h1, h2, h3]

theorem dropTrail_sub (p : Char → Bool) (l : Str) : List.Sublist (dropTrail p l) l := by
  have h := (List.dropWhile_sublist (l := l.reverse) p).reverse
  simpa [dropTrail] using h

theorem pyStrip_sub (p : Char → Bool) (s : Str) : List.Sublist (pyStrip p s) s :=
  (dropTrail_sub p _).trans (List.dropWhile_sublist p)

theorem stripWS_eq_self_of_clean (s : Str) (h : clean_line s = s) : stripWS s = s := by
  have h1 : List.Sublist (stripWS s) s := pyStrip_sub ..
  have h2 : List.Sublist (clean_line s) (stripWS s) := pyStrip_sub ..
  have hge : s.length ≤ (stripWS s).length := by
    have h3 := h2.length_le
    rwa [h] at h3
  have hl : (stripWS s).length = s.length := le_antisymm h1.length_le hge
  exact h1.eq_of_length hl

theorem head_dropWhile_false (p : Char → Bool) :
    ∀ (l : Str) (c : Char), (l.dropWhile p).head? = some c → p c = false := by
  intro l
  induction l with
  | nil => intro c h; simp [List.dropWhile] at h
  | cons a t ih =>
    intro c h
    rw [List.dropWhile_cons] at h
    by_cases hp : p a = true
    · exact ih c (by simpa [hp] using h)
    · have : a = c := by simpa [hp] using h
      subst this
      simpa using hp

theorem exists_dropTrail_append (p : Char → Bool) (l : Str) :
    ∃ t, l = dropTrail p l ++ t :=
  ⟨(l.reverse.takeWhile p).reverse, by
    rw [dropTrail, ← List.reverse_append, List.takeWhile_append_dropWhile, List.reverse_reverse]⟩

theorem head_append_of_some (x y : Str) (c : Char) (h : x.head? = some c) :
    (x ++ y).head? = some c := by
  cases x with
  | nil => simp at h
  | cons a t => simpa using h

theorem head_dropTrail_some (p : Char → Bool) (l : Str) (c : Char)
    (h : (dropTrail p l).head? = some c) : l.head? = some c := by
  obtain ⟨t, ht⟩ := exists_dropTrail_append p l
  rw [ht]
  exact head_append_of_some _ _ _ h

theorem getLast_dropTrail_false (p : Char → Bool) (l : Str) (c : Char)
    (h : (dropTrail p l).getLast? = some c) : p c = false := by
  rw [← List.head?_reverse] at h
  rw [dropTrail, List.reverse_reverse] at h
  exact head_dropWhile_false p _ c h

theorem head_pyStrip_false (p : Char → Bool) (s : Str) (c : Char)
    (h : (pyStrip p s).head? = some c) : p c = false :=
  head_dropWhile_false p _ c (head_dropTrail_some p _ c h)

theorem getLast_pyStrip_false (p : Char → Bool) (s : Str) (c : Char)
    (h : (pyStrip p s).getLast? = some c) : p c = false :=
  getLast_dropTrail_false p _ c h

theorem dropWhile_eq_self_of_all (p : Char → Bool) (l : Str) (h : ∀ c ∈ l, p c = false) :
    l.dropWhile p = l := by
  cases l with
  | nil => rfl
  | cons a t => rw [List.dropWhile_cons, h a (by simp)]; simp

theorem pyStrip_eq_self_of_all (p : Char → Bool) (l : Str) (h : ∀ c ∈ l, p c = false) :
    pyStrip p l = l := by
  rw [pyStrip, dropWhile_eq_self_of_all p l h, dropTrail,
      dropWhile_eq_self_of_all p _ (fun c hc => h c (List.mem_reverse.mp hc)),
      List.reverse_reverse]

theorem clean_eq_stripWS_of_no_bom (s : Str) (h : ('\uFEFF' : Char) ∉ s) :
    clean_line s = stripWS s := by
  apply pyStrip_eq_self_of_all
  intro c hc
  have hmem : c ∈ s := (pyStrip_sub isPySpace s).subset hc
  have : c ≠ '\uFEFF' := fun heq => h (heq ▸ hmem)
  simpa [isBOM] using this

end FaqExtract


namespace FaqExtract

theorem flushGuard_absState (t : TraceState) : flushGuard (absState t) = traceFlushGuard t := rfl

theorem joinParts_append_one (ts : List Str) (x : Str) :
    joinParts (ts ++ [x]) = joinParts ts ++ '\n' :: x := by
  simp [joinParts, List.foldl_append]

theorem step_absState (t : TraceState) (b : StyledBlock) :
    step (absState t) b = absState (stepTrace t b) := by
  by_cases h1 : clean_line b.text = []
  · rw [step_skip _ _ h1]
    simp [stepTrace, h1]
  · by_cases h2 : lowerStr b.style = section_heading_style
    · rw [step_section _ _ h1 h2]
      simp [stepTrace, h1, h2, absState]
    · by_cases h3 : lowerStr b.style = question_heading_style
      · by_cases h4 : traceFlushGuard t
        · rw [step_question_flush _ _ h1 h3 (by rw [flushGuard_absState]; exact h4)]
          simp [stepTrace, h1, h2, h3, h4, absState, absRec, flushRec, joinParts,
                show question_heading_style ≠ section_heading_style from by decide]
        · rw [step_question_noflush _ _ h1 h3 (by rw [flushGuard_absState]; exact h4)]
          simp [stepTrace, h1, h2, h3, h4, absState,
                show question_heading_style ≠ section_heading_style from by decide]
      · rw [step_body _ _ h1 h2 h3]
        simp [stepTrace, h1, h2, h3, absState, joinParts_append_one]

theorem foldl_absState (blocks : List StyledBlock) : ∀ t : TraceState,
    List.foldl step (absState t) blocks = absState (List.foldl stepTrace t blocks) := by
  induction blocks with
  | nil => intro t; rfl
  | cons b bs ih =>
    intro t
    rw [List.foldl_cons, List.foldl_cons, step_absState]
    exact ih _

theorem finalFlush_absState (t : TraceState) :
    finalFlush (absState t) = (finalTrace t).map absRec := by
  by_cases h : traceFlushGuard t
  · rw [finalFlush, if_pos (by rw [flushGuard_absState]; exact h), finalTrace, if_pos h]
    simp [absState, flushRec, absRec]
  · rw [finalFlush, if_neg (by rw [flushGuard_absState]; exact h), finalTrace, if_neg h]
    rfl

theorem initState_absState : initState = absState initTrace := rfl

/-- C1 counterexample: after the Segmenter processes the QuestionHeading
block `Q1?` (whose normalized text is non-empty), the pending answer still
holds the earlier Body text `hello`, because no flush occurred (the
section and question were empty) and the source resets
`answer_text_so_far` only inside the flush branch.  This refutes the claim
that the reset happens whether or not a Record was flushed. -/
theorem reset_regardless_refuted :
    lowerStr (("Heading 2").toList) = question_heading_style ∧
    clean_line (("Q1?").toList) ≠ [] ∧
    (List.foldl step initState
      [⟨("hello").toList, ("Normal").toList⟩,
       ⟨("Q1?").toList, ("Heading 2").toList⟩]).answer_text_so_far ≠ [] := by
  decide

/-- C1 (amended): immediately after the Segmenter processes a block whose
style is (case-insensitively) QuestionHeading and whose normalized text is
non-empty, the pending answer is empty exactly when a Record was flushed
at that block (the flush guard held), and is left unchanged otherwise; the
current question becomes the normalized text in either case. -/
theorem reset_only_on_flush (st : ParseState) (b : StyledBlock)
    (h1 : lowerStr b.style = question_heading_style) (h2 : clean_line b.text ≠ []) :
    (step st b).answer_text_so_far = (if flushGuard st then [] else st.answer_text_so_far) ∧
    (step st b).question_title = clean_line b.text := by
  by_cases h3 : flushGuard st
  · rw [step_question_flush st b h2 h1 h3, if_pos h3]
    exact ⟨rfl, rfl⟩
  · rw [step_question_noflush st b h2 h1 h3, if_neg h3]
    exact ⟨rfl, rfl⟩

/-- Witness for the amended C1 theorem at a concrete state and block. -/
theorem reset_only_on_flush_witness :
    (step ⟨("S").toList, [], ('h' :: ('i' :: [])), []⟩
        ⟨("Q1?").toList, ("Heading 2").toList⟩).answer_text_so_far =
      (if flushGuard ⟨("S").toList, [], ('h' :: ('i' :: [])), []⟩ then []
       else ('h' :: ('i' :: []))) ∧
    (step ⟨("S").toList, [], ('h' :: ('i' :: [])), []⟩
        ⟨("Q1?").toList, ("Heading 2").toList⟩).question_title =
      clean_line (("Q1?").toList) :=
  reset_only_on_flush _ _ (by decide) (by decide)

/-- C2 counterexample: in `leakBlocks` the Body text `pre` lies before the
first QuestionHeading, yet the single emitted Record's answer is
`pre\nans`, not the `ans` that the Body blocks between its QuestionHeading
`Q1` and the flush point `Q2` would give.  The leak happens because the
failed flush at `Q1` (empty question) does not reset the pending answer. -/
theorem preamble_drop_refuted :
    read_faq leakBlocks =
      [⟨("pre\nans").toList, ("S").toList, ("Q1").toList⟩] ∧
    ("pre\nans").toList ≠ ("ans").toList := by
  decide

/-- C2 (amended): each emitted Record's answer equals the normalized texts
of the non-heading blocks accumulated since the last successful flush (or
since the start of the input), joined by line breaks and trimmed — as
recorded by the instrumented segmentation `traceRecs`, whose `parts` field
collects exactly those cleaned texts and is reset only when a flush
occurs.  In particular Body text preceding the first QuestionHeading can
end up inside the first emitted Record. -/
theorem answer_from_accumulated_parts (blocks : List StyledBlock) :
    read_faq blocks =
      (traceRecs blocks).map
        (fun tr => ⟨stripWS (joinParts tr.parts), tr.sec, tr.question⟩) := by
  show read_faq blocks = (traceRecs blocks).map absRec
  rw [read_faq, traceRecs, initState_absState, foldl_absState, finalFlush_absState]

end FaqExtract

namespace FaqExtract

theorem flushRec_good (st : ParseState) (h : flushGuard st) : goodRec (flushRec st) :=
  ⟨h.1, h.2.1, h.2.2⟩

theorem step_questions_good (st : ParseState) (b : StyledBlock)
    (h : ∀ r ∈ st.questions, goodRec r) : ∀ r ∈ (step st b).questions, goodRec r := by
  by_cases h1 : clean_line b.text = []
  · rw [step_skip _ _ h1]; exact h
  · by_cases h2 : lowerStr b.style = section_heading_style
    · rw [step_section _ _ h1 h2]; exact h
    · by_cases h3 : lowerStr b.style = question_heading_style
      · by_cases h4 : flushGuard st
        · rw [step_question_flush _ _ h1 h3 h4]
          intro r hr
          rcases List.mem_append.mp hr with hm | hm
          · exact h r hm
          · rw [List.mem_singleton.mp hm]
            exact flushRec_good st h4
        · rw [step_question_noflush _ _ h1 h3 h4]; exact h
      · rw [step_body _ _ h1 h2 h3]; exact h

theorem foldl_questions_good :
    ∀ (blocks : List StyledBlock) (st : ParseState), (∀ r ∈ st.questions, goodRec r) →
      ∀ r ∈ (List.foldl step st blocks).questions, goodRec r := by
  intro blocks
  induction blocks with
  | nil => intro st h; exact h
  | cons b bs ih =>
    intro st h
    rw [List.foldl_cons]
    exact ih _ (step_questions_good st b h)

/-- C3: at a flush point — a QuestionHeading block whose normalized text is
non-empty (blocks with empty normalized text are skipped entirely), or the
end of input — a Record is appended if and only if the current section,
current question and trimmed pending answer are all non-empty at that
moment; consequently no emitted Record has an empty section, question or
answer field. -/
theorem record_emission_iff_guard :
    (∀ (st : ParseState) (b : StyledBlock), lowerStr b.style = question_heading_style →
       clean_line b.text ≠ [] →
       ((step st b).questions = st.questions ++ [flushRec st] ↔ flushGuard st)) ∧
    (∀ st : ParseState, (finalFlush st = st.questions ++ [flushRec st] ↔ flushGuard st) ∧
       (¬ flushGuard st → finalFlush st = st.questions)) ∧
    (∀ (blocks : List StyledBlock) (r : Record), r ∈ read_faq blocks →
       r.text ≠ [] ∧ r.sec ≠ [] ∧ r.question ≠ []) := by
  refine ⟨?_, ?_, ?_⟩
  · intro st b h1 h2
    constructor
    · intro hq
      by_contra h3
      rw [step_question_noflush st b h2 h1 h3] at hq
      have := congrArg List.length hq
      simp at this
    · intro h3
      rw [step_question_flush st b h2 h1 h3]
  · intro st
    constructor
    · constructor
      · intro hq
        by_contra h3
        rw [finalFlush, if_neg h3] at hq
        have := congrArg List.length hq
        simp at this
      · intro h3
        rw [finalFlush, if_pos h3]
    · intro h3
      rw [finalFlush, if_neg h3]
  · intro blocks r hr
    rw [read_faq, finalFlush] at hr
    have hgood : ∀ x ∈ (List.foldl step initState blocks).questions, goodRec x :=
      foldl_questions_good blocks initState (by intro x hx; simp [initState] at hx)
    by_cases hg : flushGuard (List.foldl step initState blocks)
    · rw [if_pos hg] at hr
      rcases List.mem_append.mp hr with hm | hm
      · exact hgood r hm
      · rw [List.mem_singleton.mp hm]
        exact flushRec_good _ hg
    · rw [if_neg hg] at hr
      exact hgood r hr

/-- Witness for C3: at the state reached by `midBlocks`' first three
blocks the guard holds and a record is appended by a further question
heading; and the record emitted from `demoBlocks` has non-empty fields. -/
theorem record_emission_iff_guard_witness :
    ((step (List.foldl step initState demoBlocks) ⟨("Q2").toList, ("Heading 2").toList⟩).questions =
        (List.foldl step initState demoBlocks).questions ++
          [flushRec (List.foldl step initState demoBlocks)] ↔
      flushGuard (List.foldl step initState demoBlocks)) ∧
    ((⟨("Ans").toList, ("General").toList, ("Q?").toList⟩ : Record).text ≠ [] ∧
      (⟨("Ans").toList, ("General").toList, ("Q?").toList⟩ : Record).sec ≠ [] ∧
      (⟨("Ans").toList, ("General").toList, ("Q?").toList⟩ : Record).question ≠ []) :=
  ⟨record_emission_iff_guard.1 (List.foldl step initState demoBlocks)
      ⟨("Q2").toList, ("Heading 2").toList⟩ (by decide) (by decide),
    record_emission_iff_guard.2.2 demoBlocks _ (by decide)⟩

theorem step_count (st : ParseState) (b : StyledBlock) :
    (step st b).questions.length + qInd (step st b) ≤
      st.questions.length + qInd st +
        (if lowerStr b.style = question_heading_style then 1 else 0) := by
  by_cases h1 : clean_line b.text = []
  · rw [step_skip _ _ h1]
    by_cases hb : lowerStr b.style = question_heading_style <;> simp [hb]
  · by_cases h2 : lowerStr b.style = section_heading_style
    · have hb : ¬ lowerStr b.style = question_heading_style := by
        rw [h2]; decide
      rw [step_section _ _ h1 h2]
      simp [hb, qInd]
    · by_cases h3 : lowerStr b.style = question_heading_style
      · by_cases h4 : flushGuard st
        · rw [step_question_flush _ _ h1 h3 h4]
          simp [h3, qInd, h1, h4.2.2]
        · rw [step_question_noflush _ _ h1 h3 h4]
          simp [h3, qInd, h1]
      · rw [step_body _ _ h1 h2 h3]
        simp [h3, qInd]

theorem foldl_count :
    ∀ (blocks : List StyledBlock) (st : ParseState),
      (List.foldl step st blocks).questions.length + qInd (List.foldl step st blocks) ≤
        st.questions.length + qInd st + countQH blocks := by
  intro blocks
  induction blocks with
  | nil => intro st; simp [countQH]
  | cons b bs ih =>
    intro st
    rw [List.foldl_cons]
    have h1 := step_count st b
    have h2 := ih (step st b)
    have h3 : countQH (b :: bs) =
        countQH bs + (if lowerStr b.style = question_heading_style then 1 else 0) := by
      by_cases hb : lowerStr b.style = question_heading_style <;>
        simp [countQH, List.countP_cons, hb]
    by_cases hb : lowerStr b.style = question_heading_style
    · simp [hb] at h1 h3
      omega
    · simp [hb] at h1 h3
      omega

/-- C6: the number of Records emitted for any input block sequence is at
most the number of blocks whose style is, case-insensitively, the
QuestionHeading style. -/
theorem records_le_question_headings (blocks : List StyledBlock) :
    (read_faq blocks).length ≤ countQH blocks := by
  have h := foldl_count blocks initState
  have h0 : initState.questions.length + qInd initState = 0 := by decide
  rw [read_faq, finalFlush]
  by_cases hg : flushGuard (List.foldl step initState blocks)
  · rw [if_pos hg]
    have hq : qInd (List.foldl step initState blocks) = 1 := by
      simp [qInd, hg.2.2]
    rw [List.length_append]
    simp only [List.length_singleton]
    omega
  · rw [if_neg hg]
    have : qInd (List.foldl step initState blocks) ≤ 1 := by
      rw [qInd]; split <;> omega
    omega

/-- C8: a block whose normalized text is empty is a complete no-op —
removing it from anywhere in the input yields exactly the same emitted
Record sequence. -/
theorem empty_block_noop (l1 l2 : List StyledBlock) (b : StyledBlock)
    (h : clean_line b.text = []) :
    read_faq (l1 ++ b :: l2) = read_faq (l1 ++ l2) := by
  rw [read_faq, read_faq, List.foldl_append, List.foldl_append, List.foldl_cons,
      step_skip _ _ h]

/-- Witness for C8 with a whitespace-only block inserted after `demoBlocks`. -/
theorem empty_block_noop_witness :
    read_faq (demoBlocks ++ ⟨("  ").toList, ("Normal").toList⟩ :: []) =
      read_faq (demoBlocks ++ []) :=
  empty_block_noop demoBlocks [] ⟨("  ").toList, ("Normal").toList⟩ (by decide)

end FaqExtract

namespace FaqExtract

theorem step_sec_ne (st : ParseState) (b : StyledBlock) (h : st.section_title ≠ []) :
    (step st b).section_title ≠ [] := by
  by_cases h1 : clean_line b.text = []
  · rw [step_skip _ _ h1]; exact h
  · by_cases h2 : lowerStr b.style = section_heading_style
    · rw [step_section _ _ h1 h2]; exact h1
    · by_cases h3 : lowerStr b.style = question_heading_style
      · by_cases h4 : flushGuard st
        · rw [step_question_flush _ _ h1 h3 h4]; exact h
        · rw [step_question_noflush _ _ h1 h3 h4]; exact h
      · rw [step_body _ _ h1 h2 h3]; exact h

theorem step_quest_ne (st : ParseState) (b : StyledBlock) (h : st.question_title ≠ []) :
    (step st b).question_title ≠ [] := by
  by_cases h1 : clean_line b.text = []
  · rw [step_skip _ _ h1]; exact h
  · by_cases h2 : lowerStr b.style = section_heading_style
    · rw [step_section _ _ h1 h2]; exact h
    · by_cases h3 : lowerStr b.style = question_heading_style
      · by_cases h4 : flushGuard st
        · rw [step_question_flush _ _ h1 h3 h4]; exact h1
        · rw [step_question_noflush _ _ h1 h3 h4]; exact h1
      · rw [step_body _ _ h1 h2 h3]; exact h

theorem foldl_sec_ne (blocks : List StyledBlock) : ∀ st : ParseState, st.section_title ≠ [] →
    (List.foldl step st blocks).section_title ≠ [] := by
  induction blocks with
  | nil => intro st h; exact h
  | cons b bs ih =>
    intro st h
    rw [List.foldl_cons]
    exact ih _ (step_sec_ne st b h)

theorem foldl_quest_ne (blocks : List StyledBlock) : ∀ st : ParseState, st.question_title ≠ [] →
    (List.foldl step st blocks).question_title ≠ [] := by
  induction blocks with
  | nil => intro st h; exact h
  | cons b bs ih =>
    intro st h
    rw [List.foldl_cons]
    exact ih _ (step_quest_ne st b h)

theorem step_emitted_inv (st : ParseState) (b : StyledBlock)
    (h : st.questions ≠ [] → st.section_title ≠ [] ∧ st.question_title ≠ []) :
    (step st b).questions ≠ [] →
      (step st b).section_title ≠ [] ∧ (step st b).question_title ≠ [] := by
  by_cases h1 : clean_line b.text = []
  · rw [step_skip _ _ h1]; exact h
  · by_cases h2 : lowerStr b.style = section_heading_style
    · rw [step_section _ _ h1 h2]
      intro hq
      exact ⟨h1, (h hq).2⟩
    · by_cases h3 : lowerStr b.style = question_heading_style
      · by_cases h4 : flushGuard st
        · rw [step_question_flush _ _ h1 h3 h4]
          intro _
          exact ⟨h4.2.1, h1⟩
        · rw [step_question_noflush _ _ h1 h3 h4]
          intro hq
          exact ⟨(h hq).1, h1⟩
      · rw [step_body _ _ h1 h2 h3]; exact h

theorem foldl_emitted_inv (blocks : List StyledBlock) : ∀ st : ParseState,
    (st.questions ≠ [] → st.section_title ≠ [] ∧ st.question_title ≠ []) →
    ((List.foldl step st blocks).questions ≠ [] →
      (List.foldl step st blocks).section_title ≠ [] ∧
      (List.foldl step st blocks).question_title ≠ []) := by
  induction blocks with
  | nil => intro st h; exact h
  | cons b bs ih =>
    intro st h
    rw [List.foldl_cons]
    exact ih _ (step_emitted_inv st b h)

/-- C9: `section_title` and `question_title` are only ever assigned
non-empty normalized texts, so each stays non-empty once non-empty; any
state that has emitted a Record has non-empty section and question titles;
and therefore at every later QuestionHeading block with non-empty
normalized text at which the trimmed pending answer is non-empty, a Record
is emitted. -/
theorem heading_state_monotone :
    (∀ (st : ParseState) (blocks : List StyledBlock), st.section_title ≠ [] →
       (List.foldl step st blocks).section_title ≠ []) ∧
    (∀ (st : ParseState) (blocks : List StyledBlock), st.question_title ≠ [] →
       (List.foldl step st blocks).question_title ≠ []) ∧
    (∀ blocks : List StyledBlock, (List.foldl step initState blocks).questions ≠ [] →
       (List.foldl step initState blocks).section_title ≠ [] ∧
       (List.foldl step initState blocks).question_title ≠ []) ∧
    (∀ (blocks : List StyledBlock) (b : StyledBlock),
       (List.foldl step initState blocks).questions ≠ [] →
       lowerStr b.style = question_heading_style → clean_line b.text ≠ [] →
       stripWS (List.foldl step initState blocks).answer_text_so_far ≠ [] →
       (step (List.foldl step initState blocks) b).questions =
         (List.foldl step initState blocks).questions ++
           [flushRec (List.foldl step initState blocks)]) := by
  refine ⟨fun st blocks => foldl_sec_ne blocks st,
          fun st blocks => foldl_quest_ne blocks st,
          fun blocks => foldl_emitted_inv blocks initState (by intro h; simp [initState] at h),
          ?_⟩
  intro blocks b hq hstyle htext hans
  obtain ⟨hsec, hquest⟩ :=
    foldl_emitted_inv blocks initState (by intro h; simp [initState] at h) hq
  rw [step_question_flush _ _ htext hstyle ⟨hans, hsec, hquest⟩]

/-- Witness for C9 at the state reached by `midBlocks`, which has emitted
one record and holds pending answer text, hit by a further question
heading. -/
theorem heading_state_monotone_witness :
    (List.foldl step initState midBlocks).questions ≠ [] ∧
    (step (List.foldl step initState midBlocks) ⟨("Q3").toList, ("Heading 2").toList⟩).questions =
      (List.foldl step initState midBlocks).questions ++
        [flushRec (List.foldl step initState midBlocks)] :=
  ⟨by decide,
    heading_state_monotone.2.2.2 midBlocks ⟨("Q3").toList, ("Heading 2").toList⟩
      (by decide) (by decide) (by decide) (by decide)⟩

theorem step_append_sub (st : ParseState) (b : StyledBlock) :
    (step st b).questions = st.questions ∨
      ∃ r, (step st b).questions = st.questions ++ [r] := by
  by_cases h1 : clean_line b.text = []
  · rw [step_skip _ _ h1]; exact Or.inl rfl
  · by_cases h2 : lowerStr b.style = section_heading_style
    · rw [step_section _ _ h1 h2]; exact Or.inl rfl
    · by_cases h3 : lowerStr b.style = question_heading_style
      · by_cases h4 : flushGuard st
        · rw [step_question_flush _ _ h1 h3 h4]
          exact Or.inr ⟨flushRec st, rfl⟩
        · rw [step_question_noflush _ _ h1 h3 h4]; exact Or.inl rfl
      · rw [step_body _ _ h1 h2 h3]; exact Or.inl rfl

theorem foldl_append_only (blocks : List StyledBlock) : ∀ st : ParseState,
    ∃ new, (List.foldl step st blocks).questions = st.questions ++ new := by
  induction blocks with
  | nil => intro st; exact ⟨[], by simp⟩
  | cons b bs ih =>
    intro st
    rw [List.foldl_cons]
    obtain ⟨new, hnew⟩ := ih (step st b)
    rcases step_append_sub st b with h | ⟨r, hr⟩
    · exact ⟨new, by rw [hnew, h]⟩
    · exact ⟨[r] ++ new, by rw [hnew, hr, List.append_assoc]⟩

/-- C10: the Segmenter only ever appends to the output (so Records appear
in the order of the flush points that produced them), each block appends
at most one Record, and segmentation of equal inputs yields equal outputs
(determinism — the model is a pure function of the block sequence). -/
theorem segmenter_order_deterministic :
    (∀ (st : ParseState) (blocks : List StyledBlock),
       ∃ new, (List.foldl step st blocks).questions = st.questions ++ new) ∧
    (∀ (st : ParseState) (b : StyledBlock),
       (step st b).questions = st.questions ∨
         ∃ r, (step st b).questions = st.questions ++ [r]) ∧
    (∀ bs1 bs2 : List StyledBlock, bs1 = bs2 → read_faq bs1 = read_faq bs2) := by
  refine ⟨fun st blocks => foldl_append_only blocks st, step_append_sub, ?_⟩
  intro bs1 bs2 h
  rw [h]

/-- Witness for C10 at `demoBlocks`. -/
theorem segmenter_order_deterministic_witness :
    (∃ new, (List.foldl step initState demoBlocks).questions =
      initState.questions ++ new) ∧
    read_faq demoBlocks = read_faq demoBlocks :=
  ⟨segmenter_order_deterministic.1 initState demoBlocks,
    segmenter_order_deterministic.2.2 demoBlocks demoBlocks rfl⟩

end FaqExtract

namespace FaqExtract

/-- C7 counterexample: normalization of `"\uFEFF x"` yields `" x"`, which
has leading whitespace (the space was shielded by the byte-order mark that
`strip()` cannot see and that is removed only afterwards); and a trailing
byte-order mark is also stripped, so stripping is not limited to a leading
byte-order mark.  This refutes both the "no leading or trailing
whitespace" part and the "and nothing else" part of the claim. -/
theorem clean_line_claim_refuted :
    clean_line (("\uFEFF x").toList) = ((" x").toList) ∧
    isPySpace ' ' = true ∧
    clean_line (("x\uFEFF").toList) = (("x").toList) := by
  decide

/-- C7 (amended): normalization strips surrounding whitespace and then
strips all leading and trailing byte-order-mark characters; the result
never begins or ends with a byte-order mark, and on inputs containing no
byte-order mark it equals the plain whitespace strip and so has no leading
or trailing whitespace; whitespace exposed by a stripped byte-order mark
can however remain.  The byte-order-mark-prefixed question of Scenario C
normalizes as the spec states. -/
theorem clean_line_spec :
    (∀ (s : Str) (c : Char), (clean_line s).head? = some c → isBOM c = false) ∧
    (∀ (s : Str) (c : Char), (clean_line s).getLast? = some c → isBOM c = false) ∧
    (∀ s : Str, ('\uFEFF' : Char) ∉ s →
       clean_line s = stripWS s ∧
       (∀ c : Char, (clean_line s).head? = some c → isPySpace c = false) ∧
       (∀ c : Char, (clean_line s).getLast? = some c → isPySpace c = false)) ∧
    clean_line (("\uFEFFWhen does it start?").toList) = (("When does it start?").toList) := by
  refine ⟨?_, ?_, ?_, by decide⟩
  · intro s c h
    exact head_pyStrip_false isBOM _ c h
  · intro s c h
    exact getLast_pyStrip_false isBOM _ c h
  · intro s hs
    have he : clean_line s = stripWS s := clean_eq_stripWS_of_no_bom s hs
    refine ⟨he, ?_, ?_⟩
    · intro c h
      rw [he] at h
      exact head_pyStrip_false isPySpace _ c h
    · intro c h
      rw [he] at h
      exact getLast_pyStrip_false isPySpace _ c h

/-- Witness for the amended C7 theorem at concrete inputs. -/
theorem clean_line_spec_witness :
    isBOM 'x' = false ∧ clean_line ((" ab ").toList) = stripWS ((" ab ").toList) :=
  ⟨clean_line_spec.1 (("x").toList) 'x' (by decide),
    (clean_line_spec.2.2.1 ((" ab ").toList) (by decide)).1⟩

end FaqExtract

namespace FaqExtract

/-- C5 counterexample: with a fetch that raises HTTP 404 for the first
course's file id and succeeds for the others (yielding a document whose
segmentation is non-empty), the run produces no aggregate at all — the
loop has no exception handling, so the first failure propagates and the
later courses' results are never produced or persisted. -/
theorem course_failure_isolation_refuted :
    badFetch (("1LpPanc33QJJ6BSsyxVg-pWNMplal84TdZtq10naIhD8").toList) =
      Except.ok demoBlocks ∧
    read_faq demoBlocks ≠ [] ∧
    course_loop badFetch faq_documents = Except.error (FetchError.err 404) :=
  ⟨rfl, by decide, rfl⟩

/-- C5 (amended): a retrieval failure while processing one course aborts
the whole run — the loop propagates the first error, so no aggregate is
produced and the remaining courses are never processed; the aggregate,
containing every course of the mapping in order, is produced exactly when
every course's fetch succeeds. -/
theorem course_loop_aborts_on_failure :
    (∀ (fetch : Str → Except FetchError (List StyledBlock)) (c fid : Str)
       (rest : List (Str × Str)) (e : FetchError), fetch fid = Except.error e →
       course_loop fetch ((c, fid) :: rest) = Except.error e) ∧
    (∀ (fetch : Str → Except FetchError (List StyledBlock)) (docs : List (Str × Str)),
       (∀ p ∈ docs, ∃ bs, fetch p.2 = Except.ok bs) →
       ∃ bundles, course_loop fetch docs = Except.ok bundles ∧
         bundles.map CourseBundle.course = docs.map Prod.fst) := by
  constructor
  · intro fetch c fid rest e h
    simp [course_loop, read_faq_remote, h]
  · intro fetch docs
    induction docs with
    | nil => intro _; exact ⟨[], rfl, rfl⟩
    | cons p rest ih =>
      intro h
      obtain ⟨bs, hbs⟩ := h p (by simp)
      obtain ⟨bundles, hb, hmap⟩ := ih (fun q hq => h q (by simp [hq]))
      refine ⟨⟨p.1, read_faq bs⟩ :: bundles, ?_, by simp [hmap]⟩
      obtain ⟨c, fid⟩ := p
      simp only [course_loop, read_faq_remote, hbs, hb]

/-- Witness for the amended C5 theorem: the failing fetch aborts the run
on the fixed mapping, and the all-succeeding fetch produces the aggregate
with all three courses in order. -/
theorem course_loop_aborts_on_failure_witness :
    course_loop badFetch faq_documents = Except.error (FetchError.err 404) ∧
    ∃ bundles, course_loop goodFetch faq_documents = Except.ok bundles ∧
      bundles.map CourseBundle.course = faq_documents.map Prod.fst :=
  ⟨course_loop_aborts_on_failure.1 badFetch
      (("data-engineering-zoomcamp").toList)
      (("19bnYs80DwuUimHM65UV3sylsCn2j1vziPOwzBwQrebw").toList)
      [(("machine-learning-zoomcamp").toList, ("1LpPanc33QJJ6BSsyxVg-pWNMplal84TdZtq10naIhD8").toList),
       (("mlops-zoomcamp").toList, ("12TlBfhIiKtyBv8RnsoJR6F72bkPDGEvPOItJIxaEzE0").toList)]
      (FetchError.err 404) rfl,
    course_loop_aborts_on_failure.2 goodFetch faq_documents
      (fun _ _ => ⟨demoBlocks, rfl⟩)⟩

end FaqExtract

namespace FaqExtract

theorem lower_sec_style : lowerStr section_heading_style = section_heading_style := by decide

theorem lower_q_style : lowerStr question_heading_style = question_heading_style := by decide

theorem lower_body_ne_sec : lowerStr body_style ≠ section_heading_style := by decide

theorem lower_body_ne_q : lowerStr body_style ≠ question_heading_style := by decide

theorem stripWS_newline (t : Str) : stripWS ('\n' :: t) = stripWS t := by
  have h : isPySpace '\n' = true := by decide
  rw [stripWS, stripWS, pyStrip, pyStrip, List.dropWhile_cons, h]
  simp

theorem expand_nil : expand [] = [] := rfl

theorem expand_cons (r : Record) (rs : List Record) :
    expand (r :: rs) = expandRecord r ++ expand rs := by
  simp [expand]

theorem step_mk_section (S q a : Str) (qs : List Record) (x : Str)
    (hx : clean_line x ≠ []) :
    step ⟨S, q, a, qs⟩ ⟨x, section_heading_style⟩ = ⟨clean_line x, q, a, qs⟩ := by
  rw [step_section _ _ hx lower_sec_style]

theorem flushGuard_intro (S q a : Str) (qs : List Record)
    (h1 : stripWS a ≠ []) (h2 : S ≠ []) (h3 : q ≠ []) :
    flushGuard ⟨S, q, a, qs⟩ := ⟨h1, h2, h3⟩

theorem step_mk_question_flush (S q a : Str) (qs : List Record) (x : Str)
    (hx : clean_line x ≠ []) (hg : flushGuard ⟨S, q, a, qs⟩) :
    step ⟨S, q, a, qs⟩ ⟨x, question_heading_style⟩ =
      ⟨S, clean_line x, [], qs ++ [⟨stripWS a, S, q⟩]⟩ := by
  rw [step_question_flush _ _ hx lower_q_style hg]
  rfl

theorem step_mk_question_noflush (S q a : Str) (qs : List Record) (x : Str)
    (hx : clean_line x ≠ []) (hg : ¬ flushGuard ⟨S, q, a, qs⟩) :
    step ⟨S, q, a, qs⟩ ⟨x, question_heading_style⟩ = ⟨S, clean_line x, a, qs⟩ := by
  rw [step_question_noflush _ _ hx lower_q_style hg]

theorem step_mk_body (S q a : Str) (qs : List Record) (x : Str)
    (hx : clean_line x ≠ []) :
    step ⟨S, q, a, qs⟩ ⟨x, body_style⟩ = ⟨S, q, a ++ '\n' :: clean_line x, qs⟩ := by
  rw [step_body _ _ hx lower_body_ne_sec lower_body_ne_q]

theorem expand_fold (S : Str) (hS : S ≠ []) (hSfix : clean_line S = S) :
    ∀ (rs : List Record) (q t : Str) (qs : List Record),
      (∀ r ∈ rs, r.sec = S ∧ clean_line r.question = r.question ∧ r.question ≠ [] ∧
        clean_line r.text = r.text ∧ r.text ≠ []) →
      clean_line q = q → q ≠ [] → stripWS t = t → t ≠ [] →
      finalFlush (List.foldl step ⟨S, q, '\n' :: t, qs⟩ (expand rs)) =
        qs ++ ⟨t, S, q⟩ :: rs := by
  intro rs
  induction rs with
  | nil =>
    intro q t qs _ hq hqne ht htne
    have hg : flushGuard ⟨S, q, '\n' :: t, qs⟩ := by
      refine ⟨?_, hS, hqne⟩
      show stripWS ('\n' :: t) ≠ []
      rw [stripWS_newline, ht]
      exact htne
    rw [expand_nil, List.foldl_nil, finalFlush, if_pos hg]
    have hrec : flushRec ⟨S, q, '\n' :: t, qs⟩ = ⟨t, S, q⟩ := by
      rw [flushRec]
      show (⟨stripWS ('\n' :: t), S, q⟩ : Record) = ⟨t, S, q⟩
      rw [stripWS_newline, ht]
    rw [hrec]
  | cons r rs ih =>
    intro q t qs hconds hq hqne ht htne
    obtain ⟨hrsec, hrq, hrqne, hrt, hrtne⟩ := hconds r (by simp)
    have hr' : r = ⟨r.text, S, r.question⟩ := by rw [← hrsec]
    rw [expand_cons, List.foldl_append]
    simp only [expandRecord, List.foldl_cons, List.foldl_nil]
    rw [step_mk_section S q ('\n' :: t) qs r.sec (by rw [hrsec, hSfix]; exact hS),
        hrsec, hSfix]
    rw [step_mk_question_flush S q ('\n' :: t) qs r.question
        (by rw [hrq]; exact hrqne)
        (flushGuard_intro S q ('\n' :: t) qs
          (by rw [stripWS_newline, ht]; exact htne) hS hqne),
        hrq, stripWS_newline, ht]
    rw [step_mk_body S r.question [] _ r.text
        (by rw [hrt]; exact hrtne), hrt]
    simp only [List.nil_append]
    rw [ih r.question r.text (qs ++ [Record.mk t S q])
        (fun r' hr'' => hconds r' (by simp [hr'']))
        hrq hrqne (stripWS_eq_self_of_clean _ hrt) hrtne]
    rw [← hr']
    simp

/-- C4 counterexample: `twoSecBlocks` makes the Segmenter emit two Records
with different sections, and `bomQBlocks` a Record whose question is not a
fixed point of normalization; in both cases re-expanding the emitted
Records to (SectionHeading, QuestionHeading, Body) triples and
re-segmenting does not return the same Record sequence, because a Record's
section heading precedes the flush of the previous Record (so the previous
Record is re-attributed to the next section), and because re-normalization
can change a field. -/
theorem reexpand_idempotent_refuted :
    read_faq (expand (read_faq twoSecBlocks)) ≠ read_faq twoSecBlocks ∧
    read_faq (expand (read_faq bomQBlocks)) ≠ read_faq bomQBlocks := by
  decide

/-- C4 (amended): re-expansion idempotence holds for Record sequences all
of whose Records carry one and the same non-empty, normalization-fixed
section and whose question and answer fields are non-empty fixed points of
normalization — in particular for any such sequence the Segmenter emits.
It can fail when emitted Records straddle two sections or when a field is
changed by re-normalization. -/
theorem reexpand_idempotent_of_uniform_section (rs : List Record) (S : Str)
    (hS : S ≠ []) (hSfix : clean_line S = S)
    (h : ∀ r ∈ rs, r.sec = S ∧ clean_line r.question = r.question ∧ r.question ≠ [] ∧
      clean_line r.text = r.text ∧ r.text ≠ []) :
    read_faq (expand rs) = rs := by
  cases rs with
  | nil => decide
  | cons r rs =>
    obtain ⟨hrsec, hrq, hrqne, hrt, hrtne⟩ := h r (by simp)
    have hr' : r = ⟨r.text, S, r.question⟩ := by rw [← hrsec]
    rw [read_faq, expand_cons]
    simp only [expandRecord, List.cons_append, List.nil_append, List.foldl_cons]
    rw [show initState = (⟨[], [], [], []⟩ : ParseState) from rfl]
    rw [step_mk_section [] [] [] [] r.sec (by rw [hrsec, hSfix]; exact hS), hrsec, hSfix]
    rw [step_mk_question_noflush S [] [] [] r.question
        (by rw [hrq]; exact hrqne) (fun hc => hc.1 rfl), hrq]
    rw [step_mk_body S r.question [] [] r.text (by rw [hrt]; exact hrtne), hrt]
    simp only [List.nil_append]
    rw [expand_fold S hS hSfix rs r.question r.text []
        (fun r' hr'' => h r' (by simp [hr'']))
        hrq hrqne (stripWS_eq_self_of_clean _ hrt) hrtne]
    rw [← hr']
    simp

/-- Witness for the amended C4 theorem on a one-record sequence. -/
theorem reexpand_idempotent_of_uniform_section_witness :
    read_faq (expand [⟨("a").toList, ("S").toList, ("Q").toList⟩]) =
      [⟨("a").toList, ("S").toList, ("Q").toList⟩] :=
  reexpand_idempotent_of_uniform_section _ (("S").toList)
    (by decide) (by decide) (by decide)

end FaqExtract
